import Mathlib

/-!
# Verification of the stock ledger and external-source reconciliation core

Shallow embedding of the stock/excel service pair of the repository:

* `StockMap` models the Python `dict` from product name to quantity that
  `StockService` owns (`services/stock_service.py`); operations `update`,
  `update_bulk`, `deduct`, `add` mirror the methods of the same names.
* `track_changes`, `sync_from_excel`, `read_stock` mirror
  `services/excel_service.py` (the `ExcelService` class); file contents are
  modelled at the row level (product cell, optionally parsed integer
  quantity cell).
* `fetch_from_api` mirrors `agents/agent2_warehouse.py`.
* `tick` mirrors one iteration of `ExcelService._monitor_loop`.

Quantities are Python `int`s, modelled as `Int`.  A Python `dict` is modelled
as an association list in insertion order; `setKey` is `d[k] = v` (replace in
place if present, otherwise append) and `lookupQ` is `d.get(k)`.
-/

set_option autoImplicit false

/-- A stock mapping: product name to quantity, in insertion order (Python `dict`). -/
abbrev StockMap := List (String × Int)

/-- `d.get(k)`: first binding of `p`, if any. -/
def lookupQ : StockMap → String → Option Int
  | [], _ => none
  | (p', q') :: rest, p => if p' = p then some q' else lookupQ rest p

/-- `d.get(p, 0)`: quantity with default `0`, as used throughout the services. -/
def getQ (m : StockMap) (p : String) : Int :=
  (lookupQ m p).getD 0

/-- `p in d` for a Python dict. -/
def hasKey (m : StockMap) (p : String) : Bool :=
  (lookupQ m p).isSome

/-- `list(d.keys())`. -/
def keysOf (m : StockMap) : List String :=
  m.map Prod.fst

/-- `d[p] = q`: replace the first binding in place, else append (Python dict
assignment keeps insertion order). -/
def setKey : StockMap → String → Int → StockMap
  | [], p, q => [(p, q)]
  | (p', q') :: rest, p, q =>
    if p' = p then (p, q) :: rest else (p', q') :: setKey rest p q

/-! ## StockService operations (`services/stock_service.py`) -/

/-- `StockService.update`: unconditional overwrite (`self.stock[product] = quantity`);
always returns `True`, so only the new map is modelled. -/
def update (m : StockMap) (product : String) (quantity : Int) : StockMap :=
  setKey m product quantity

/-- `StockService.update_bulk`: `self.stock.update(stock_dict)` — merge the
given entries into the ledger. -/
def update_bulk (m : StockMap) (stock_dict : StockMap) : StockMap :=
  stock_dict.foldl (fun acc pr => setKey acc pr.1 pr.2) m

/-- `StockService.add`: `self.stock[product] = self.stock.get(product, 0) + quantity`. -/
def add (m : StockMap) (product : String) (quantity : Int) : StockMap :=
  setKey m product (getQ m product + quantity)

/-- Result of `StockService.deduct`: the `(success, message)` pair together with
the stock mapping after the call. -/
structure DeductOutcome where
  success : Bool
  message : String
  stock : StockMap
  deriving Repr, DecidableEq

/-- `StockService.deduct`: fail if the product is absent or the stored quantity
is below the requested one; otherwise decrement.  No other validation is
performed on `quantity`. -/
def deduct (m : StockMap) (product : String) (quantity : Int) : DeductOutcome :=
  match lookupQ m product with
  | none => ⟨false, "Product " ++ product ++ " not found in stock", m⟩
  | some v =>
    if v < quantity then
      ⟨false, "Insufficient stock for " ++ product, m⟩
    else
      ⟨true, "Stock deducted successfully", setKey m product (v - quantity)⟩

/-! ## Basic lemmas about the dict model -/

@[simp] theorem lookupQ_nil (x : String) : lookupQ [] x = none := rfl

@[simp] theorem lookupQ_cons (p' : String) (q' : Int) (rest : StockMap) (x : String) :
    lookupQ ((p', q') :: rest) x = if p' = x then some q' else lookupQ rest x := rfl

@[simp] theorem setKey_nil (p : String) (q : Int) : setKey [] p q = [(p, q)] := rfl

@[simp] theorem setKey_cons (p' : String) (q' : Int) (rest : StockMap) (p : String) (q : Int) :
    setKey ((p', q') :: rest) p q =
      if p' = p then (p, q) :: rest else (p', q') :: setKey rest p q := rfl

@[simp] theorem keysOf_nil : keysOf [] = [] := rfl

@[simp] theorem keysOf_cons (pr : String × Int) (rest : StockMap) :
    keysOf (pr :: rest) = pr.1 :: keysOf rest := rfl

theorem lookupQ_setKey (m : StockMap) (p : String) (q : Int) (x : String) :
    lookupQ (setKey m p q) x = if p = x then some q else lookupQ m x := by
  induction m with
  | nil => simp
  | cons pr rest ih =>
    obtain ⟨p', q'⟩ := pr
    by_cases hp : p' = p
    · subst hp
      by_cases hx : p' = x <;> simp [hx]
    · by_cases hx : p' = x
      · subst hx
        have hpx : ¬ p = p' := fun h => hp h.symm
        simp [hp, hpx]
      · simp [hp, hx, ih]

theorem keysOf_setKey (m : StockMap) (p : String) (q : Int) :
    keysOf (setKey m p q) = if hasKey m p then keysOf m else keysOf m ++ [p] := by
  induction m with
  | nil => simp [hasKey]
  | cons pr rest ih =>
    obtain ⟨p', q'⟩ := pr
    by_cases hp : p' = p
    · subst hp
      simp [hasKey]
    · simp only [setKey_cons, if_neg hp, keysOf_cons, hasKey, lookupQ_cons, if_neg hp]
      rw [ih]
      unfold hasKey
      by_cases hm : (lookupQ rest p).isSome = true <;> simp [hm]

theorem mem_keysOf_iff (m : StockMap) (p : String) :
    p ∈ keysOf m ↔ hasKey m p = true := by
  induction m with
  | nil => simp [hasKey]
  | cons pr rest ih =>
    obtain ⟨p', q'⟩ := pr
    by_cases hp : p' = p
    · subst hp
      simp [hasKey]
    · have hpx : ¬ p = p' := fun h => hp h.symm
      simp [hasKey, hp, hpx] at ih ⊢
      exact ih

theorem hasKey_setKey (m : StockMap) (p : String) (q : Int) (x : String) :
    hasKey (setKey m p q) x = (p = x || hasKey m x) := by
  by_cases hx : p = x <;> simp [hasKey, lookupQ_setKey, hx]

/-- The last binding of `x` in `d` (Python: the value the key holds after all
assignments in iteration order), if any. -/
def lookupLast : StockMap → String → Option Int
  | [], _ => none
  | pr :: rest, x =>
    match lookupLast rest x with
    | some q => some q
    | none => if pr.1 = x then some pr.2 else none

@[simp] theorem lookupLast_nil (x : String) : lookupLast [] x = none := rfl

@[simp] theorem lookupLast_cons (pr : String × Int) (rest : StockMap) (x : String) :
    lookupLast (pr :: rest) x =
      match lookupLast rest x with
      | some q => some q
      | none => if pr.1 = x then some pr.2 else none := rfl

theorem lookupLast_isSome (d : StockMap) (x : String) :
    (lookupLast d x).isSome = (lookupQ d x).isSome := by
  induction d with
  | nil => rfl
  | cons pr rest ih =>
    obtain ⟨p', q'⟩ := pr
    cases h : lookupLast rest x <;> by_cases hx : p' = x <;>
      simp [h, hx, ← ih]

theorem lookupQ_update_bulk (m d : StockMap) (x : String) :
    lookupQ (update_bulk m d) x =
      match lookupLast d x with
      | some q => some q
      | none => lookupQ m x := by
  induction d generalizing m with
  | nil => simp [update_bulk, lookupLast]
  | cons pr rest ih =>
    obtain ⟨p', q'⟩ := pr
    show lookupQ (update_bulk (setKey m p' q') rest) x = _
    rw [ih]
    cases h : lookupLast rest x with
    | some q => simp [lookupLast, h]
    | none =>
      rw [lookupQ_setKey]
      by_cases hx : p' = x <;> simp [lookupLast, h, hx]

theorem hasKey_update_bulk (m d : StockMap) (x : String) :
    hasKey (update_bulk m d) x = (hasKey d x || hasKey m x) := by
  simp only [hasKey, lookupQ_update_bulk]
  cases h : lookupLast d x with
  | some q =>
    have hs : (lookupQ d x).isSome = true := by rw [← lookupLast_isSome, h]; rfl
    simp [hs]
  | none =>
    have hs : (lookupQ d x).isSome = false := by rw [← lookupLast_isSome, h]; rfl
    simp [hs]

/-- On a map with no duplicate keys (every Python dict), the first and the last
binding coincide. -/
theorem lookupLast_eq_lookupQ (d : StockMap) (hd : (keysOf d).Nodup) (x : String) :
    lookupLast d x = lookupQ d x := by
  induction d with
  | nil => rfl
  | cons pr rest ih =>
    obtain ⟨p', q'⟩ := pr
    rw [keysOf_cons, List.nodup_cons] at hd
    obtain ⟨hnot, hrest⟩ := hd
    by_cases hx : p' = x
    · subst hx
      have hnone : lookupQ rest p' = none := by
        cases h : lookupQ rest p' with
        | none => rfl
        | some q =>
          exfalso
          apply hnot
          rw [mem_keysOf_iff]
          simp [hasKey, h]
      have hlast : lookupLast rest p' = none := by
        cases h : lookupLast rest p' with
        | none => rfl
        | some q =>
          exfalso
          have hs : (lookupQ rest p').isSome = true := by
            rw [← lookupLast_isSome, h]; rfl
          simp [hnone] at hs
      simp [hlast]
    · rw [lookupLast_cons, ih hrest]
      cases h : lookupQ rest x <;> simp [h, hx]

theorem nodupKeys_setKey (m : StockMap) (p : String) (q : Int)
    (hm : (keysOf m).Nodup) : (keysOf (setKey m p q)).Nodup := by
  rw [keysOf_setKey]
  by_cases h : hasKey m p
  · simp [h, hm]
  · simp only [h, Bool.false_eq_true, if_false]
    rw [List.nodup_append]
    refine ⟨hm, List.nodup_singleton p, ?_⟩
    intro a ha hb
    simp at hb
    subst hb
    rw [mem_keysOf_iff] at ha
    simp [ha] at h

/-! ## ChangeTracker (`ExcelService.track_changes`) -/

/-- One entry of the `increased` / `decreased` partitions:
`{'old': old_qty, 'new': new_qty, 'change': ...}` keyed by product. -/
structure QtyChange where
  product : String
  oldQty : Int
  newQty : Int
  change : Int
  deriving Repr, DecidableEq

/-- The five-way partition returned by `ExcelService.track_changes`. -/
structure ChangeSet where
  added : StockMap
  removed : StockMap
  increased : List QtyChange
  decreased : List QtyChange
  unchanged : StockMap
  deriving Repr, DecidableEq

/-- The five classification outcomes of the `if`/`elif` chain in
`track_changes`. -/
inductive ChangeKind where
  | added
  | removed
  | increased
  | decreased
  | unchanged
  deriving Repr, DecidableEq

/-- The `if`/`elif` chain of `track_changes` for one product, with
`old_qty = old_stock.get(product, 0)` and `new_qty = new_stock.get(product, 0)`. -/
def classifyChange (old_stock new_stock : StockMap) (product : String) : ChangeKind :=
  if hasKey old_stock product = false then .added
  else if hasKey new_stock product = false then .removed
  else if getQ old_stock product < getQ new_stock product then .increased
  else if getQ new_stock product < getQ old_stock product then .decreased
  else .unchanged

/-- `all_products = set(old_stock.keys()) | set(new_stock.keys())`, as the
duplicate-free list of key names. -/
def allProducts (old_stock new_stock : StockMap) : List String :=
  (keysOf old_stock ++ keysOf new_stock).dedup

/-- `ExcelService.track_changes`: classify every product of either snapshot. -/
def track_changes (old_stock new_stock : StockMap) : ChangeSet where
  added := (allProducts old_stock new_stock).filterMap fun p =>
    if classifyChange old_stock new_stock p = .added then
      some (p, getQ new_stock p) else none
  removed := (allProducts old_stock new_stock).filterMap fun p =>
    if classifyChange old_stock new_stock p = .removed then
      some (p, getQ old_stock p) else none
  increased := (allProducts old_stock new_stock).filterMap fun p =>
    if classifyChange old_stock new_stock p = .increased then
      some ⟨p, getQ old_stock p, getQ new_stock p,
            getQ new_stock p - getQ old_stock p⟩ else none
  decreased := (allProducts old_stock new_stock).filterMap fun p =>
    if classifyChange old_stock new_stock p = .decreased then
      some ⟨p, getQ old_stock p, getQ new_stock p,
            getQ old_stock p - getQ new_stock p⟩ else none
  unchanged := (allProducts old_stock new_stock).filterMap fun p =>
    if classifyChange old_stock new_stock p = .unchanged then
      some (p, getQ new_stock p) else none

/-! ## External source files (`ExcelService.read_stock`) -/

/-- An external spreadsheet/CSV as the reconciler sees it: existence, presence
of the two required columns, and the data rows.  Each row carries the
stripped product cell and the quantity cell as `some q` when `int(...)`
succeeds, `none` when it raises. -/
structure SourceFile where
  fileExists : Bool
  hasProductCol : Bool
  hasQuantityCol : Bool
  rows : List (String × Option Int)
  deriving Repr, DecidableEq

/-- The two source-level failures of `read_stock`. -/
inductive ReadError where
  | sourceUnavailable (msg : String)
  | malformedSource (msg : String)
  deriving Repr, DecidableEq

/-- One row of the `read_stock` loop: `stock_data[product] = quantity` when
the quantity cell parses to a non-negative integer, else skip the row. -/
def parseStep (acc : StockMap) (pr : String × Option Int) : StockMap :=
  match pr.2 with
  | some q => if 0 ≤ q then setKey acc pr.1 q else acc
  | none => acc

/-- The row loop of `read_stock`, starting from the empty `stock_data`. -/
def parseRows (rows : List (String × Option Int)) : StockMap :=
  rows.foldl parseStep []

/-- `ExcelService.read_stock`: check existence, check the required columns,
then parse the rows. -/
def read_stock (src : SourceFile) : Except ReadError StockMap :=
  if src.fileExists = false then
    .error (.sourceUnavailable "Excel file not found")
  else if (src.hasProductCol && src.hasQuantityCol) = false then
    .error (.malformedSource "Missing required columns")
  else
    .ok (parseRows src.rows)

/-! ## Reconciliation (`ExcelService.sync_from_excel`) and its audit trail -/

/-- One row inserted by `database.log_stock_change` into `stock_history`. -/
structure AuditEntry where
  product : String
  quantityChange : Int
  newQuantity : Int
  reason : String
  deriving Repr, DecidableEq

/-- The `log_stock_change` calls issued by `sync_from_excel`, in loop order:
added, removed, increased, decreased (`unchanged` is never logged).  A removed
product is logged with delta `-old_qty` and resulting quantity `0`. -/
def auditOf (c : ChangeSet) : List AuditEntry :=
  c.added.map (fun pr => ⟨pr.1, pr.2, pr.2, "excel_added"⟩)
    ++ c.removed.map (fun pr => ⟨pr.1, -pr.2, 0, "excel_removed"⟩)
    ++ c.increased.map (fun e => ⟨e.product, e.change, e.newQty, "excel_increased"⟩)
    ++ c.decreased.map (fun e => ⟨e.product, -e.change, e.newQty, "excel_decreased"⟩)

/-- Result of one `sync_from_excel` call: the returned `(changes, change_count)`
pair (`changes = none` models the empty-dict failure return), together with the
ledger afterwards and the audit rows written. -/
structure SyncResult where
  changes : Option ChangeSet
  changeCount : Nat
  stock : StockMap
  audit : List AuditEntry
  deriving Repr, DecidableEq

/-- The success path of `sync_from_excel` once `read_stock` produced
`new_stock_data`: diff against the current ledger, apply `update_bulk`, log
one row per changed product, count the logged rows. -/
def sync_apply (ledger new_stock_data : StockMap) : SyncResult :=
  let changes := track_changes ledger new_stock_data
  let newLedger := update_bulk ledger new_stock_data
  let audit := auditOf changes
  ⟨some changes, audit.length, newLedger, audit⟩

/-- `ExcelService.sync_from_excel`: on a read failure return `({}, 0)` and
touch nothing; otherwise reconcile. -/
def sync_from_excel (ledger : StockMap) (src : SourceFile) : SyncResult :=
  match read_stock src with
  | .error _ => ⟨none, 0, ledger, []⟩
  | .ok new_stock_data => sync_apply ledger new_stock_data

/-! ## API import (`agents/agent2_warehouse.py`, `fetch_from_api`) -/

/-- Result of `fetch_from_api`: the returned `(success, message, items_updated)`
triple together with the ledger afterwards and the audit rows written. -/
structure FetchResult where
  success : Bool
  message : String
  itemsUpdated : Nat
  stock : StockMap
  audit : List AuditEntry
  deriving Repr, DecidableEq

/-- One item of the `fetch_from_api` loop: when the quantity parses to a
non-negative integer, `stock_service.update` it, log an `api_import` row with
delta against the previous value, and count it; otherwise skip it. -/
def apiStep (acc : StockMap × Nat × List AuditEntry) (pr : String × Option Int) :
    StockMap × Nat × List AuditEntry :=
  match pr.2 with
  | some q =>
    if 0 ≤ q then
      (setKey acc.1 pr.1 q, acc.2.1 + 1,
       acc.2.2 ++ [⟨pr.1, q - getQ acc.1 pr.1, q, "api_import"⟩])
    else acc
  | none => acc

/-- The item loop of `fetch_from_api`. -/
def applyApiItems (ledger : StockMap) (items : List (String × Option Int)) :
    StockMap × Nat × List AuditEntry :=
  items.foldl apiStep (ledger, 0, [])

/-- `fetch_from_api`: request-level failure leaves everything untouched; a
response without the `stock` key is rejected; otherwise the items are applied
one by one. -/
def fetch_from_api (ledger : StockMap) (requestOk : Bool) (hasStockKey : Bool)
    (items : List (String × Option Int)) : FetchResult :=
  if requestOk = false then
    ⟨false, "API request failed", 0, ledger, []⟩
  else if hasStockKey = false then
    ⟨false, "Invalid API response format - missing stock key", 0, ledger, []⟩
  else
    let r := applyApiItems ledger items
    ⟨true, "Successfully imported items from API", r.2.1, r.1, r.2.2⟩

/-! ## File watcher (`ExcelService._monitor_loop`) -/

/-- The watcher state relevant to one tick: `self.last_modified_time`
(initialised to `0` in `ExcelService.__init__`). -/
structure WatcherState where
  lastModifiedTime : Nat
  deriving Repr, DecidableEq

/-- One iteration of `_monitor_loop`.  `observed` is `os.path.getmtime` when
the file exists, `none` otherwise.  Returns the new state and whether
`sync_from_excel` was invoked this tick. -/
def tick (st : WatcherState) (observed : Option Nat) : WatcherState × Bool :=
  match observed with
  | none => (st, false)
  | some current_mtime =>
    if current_mtime ≠ st.lastModifiedTime then
      (⟨current_mtime⟩, decide (0 < st.lastModifiedTime))
    else
      (st, false)

/-- A run of the monitor loop over a trace of observations, collecting the
per-tick sync-invocation flags. -/
def runTicks (st : WatcherState) : List (Option Nat) → WatcherState × List Bool
  | [] => (st, [])
  | obs :: rest =>
    let r := tick st obs
    let r2 := runTicks r.1 rest
    (r2.1, r.2 :: r2.2)

/-! ## Partition lemmas for `track_changes` -/

theorem mem_allProducts_iff (old_stock new_stock : StockMap) (p : String) :
    p ∈ allProducts old_stock new_stock ↔
      (hasKey old_stock p || hasKey new_stock p) = true := by
  simp [allProducts, List.mem_dedup, mem_keysOf_iff]

theorem nodup_allProducts (old_stock new_stock : StockMap) :
    (allProducts old_stock new_stock).Nodup :=
  List.nodup_dedup _

/-- Key membership in a partition built by `filterMap` with a key-preserving
constructor. -/
theorem mem_map_key_filterMap {β : Type} (k : β → String) (l : List String)
    (cond : String → Prop) [DecidablePred cond] (g : String → β)
    (hg : ∀ p, k (g p) = p) (x : String) :
    (x ∈ (l.filterMap fun p => if cond p then some (g p) else none).map k) ↔
      (x ∈ l ∧ cond x) := by
  simp only [List.mem_map, List.mem_filterMap]
  constructor
  · rintro ⟨b, ⟨a, ha, hfa⟩, hk⟩
    by_cases hc : cond a
    · rw [if_pos hc] at hfa
      have hba : b = g a := by injection hfa with h; exact h.symm
      subst hba
      rw [hg a] at hk
      subst hk
      exact ⟨ha, hc⟩
    · rw [if_neg hc] at hfa
      cases hfa
  · rintro ⟨hl, hc⟩
    exact ⟨g x, ⟨x, hl, by rw [if_pos hc]⟩, hg x⟩

/-- The entries of such a partition whose key equals `x`, when the underlying
product list has no duplicates. -/
theorem filter_key_filterMap {β : Type} (k : β → String) (l : List String)
    (hl : l.Nodup) (cond : String → Prop) [DecidablePred cond] (g : String → β)
    (hg : ∀ p, k (g p) = p) (x : String) :
    ((l.filterMap fun p => if cond p then some (g p) else none).filter
        fun b => k b = x) =
      if x ∈ l ∧ cond x then [g x] else [] := by
  induction l with
  | nil => simp
  | cons a t ih =>
    rw [List.nodup_cons] at hl
    obtain ⟨hat, ht⟩ := hl
    by_cases hc : cond a
    · rw [List.filterMap_cons, if_pos hc]
      by_cases hax : a = x
      · subst hax
        rw [List.filter_cons_of_pos (by simp [hg])]
        rw [ih ht]
        have hxt : ¬ (a ∈ t ∧ cond a) := fun h => hat h.1
        rw [if_neg hxt, if_pos ⟨List.mem_cons_self a t, hc⟩]
      · rw [List.filter_cons_of_neg (by simp [hg, hax])]
        rw [ih ht]
        by_cases hxt : x ∈ t ∧ cond x
        · rw [if_pos hxt, if_pos ⟨List.mem_cons_of_mem a hxt.1, hxt.2⟩]
        · rw [if_neg hxt, if_neg ?_]
          rintro ⟨hmem, hcx⟩
          rcases List.mem_cons.mp hmem with h | h
          · exact hax h.symm
          · exact hxt ⟨h, hcx⟩
    · rw [List.filterMap_cons, if_neg hc]
      rw [ih ht]
      by_cases hxt : x ∈ t ∧ cond x
      · rw [if_pos hxt, if_pos ⟨List.mem_cons_of_mem a hxt.1, hxt.2⟩]
      · rw [if_neg hxt, if_neg ?_]
        rintro ⟨hmem, hcx⟩
        rcases List.mem_cons.mp hmem with h | h
        · subst h
          exact hc hcx
        · exact hxt ⟨h, hcx⟩

theorem mem_keysOf_added_iff (old_stock new_stock : StockMap) (p : String) :
    p ∈ keysOf (track_changes old_stock new_stock).added ↔
      p ∈ allProducts old_stock new_stock ∧
        classifyChange old_stock new_stock p = .added :=
  mem_map_key_filterMap Prod.fst _ _ _ (fun _ => rfl) p

theorem mem_keysOf_removed_iff (old_stock new_stock : StockMap) (p : String) :
    p ∈ keysOf (track_changes old_stock new_stock).removed ↔
      p ∈ allProducts old_stock new_stock ∧
        classifyChange old_stock new_stock p = .removed :=
  mem_map_key_filterMap Prod.fst _ _ _ (fun _ => rfl) p

theorem mem_increased_iff (old_stock new_stock : StockMap) (p : String) :
    p ∈ (track_changes old_stock new_stock).increased.map QtyChange.product ↔
      p ∈ allProducts old_stock new_stock ∧
        classifyChange old_stock new_stock p = .increased :=
  mem_map_key_filterMap QtyChange.product _ _ _ (fun _ => rfl) p

theorem mem_decreased_iff (old_stock new_stock : StockMap) (p : String) :
    p ∈ (track_changes old_stock new_stock).decreased.map QtyChange.product ↔
      p ∈ allProducts old_stock new_stock ∧
        classifyChange old_stock new_stock p = .decreased :=
  mem_map_key_filterMap QtyChange.product _ _ _ (fun _ => rfl) p

theorem mem_keysOf_unchanged_iff (old_stock new_stock : StockMap) (p : String) :
    p ∈ keysOf (track_changes old_stock new_stock).unchanged ↔
      p ∈ allProducts old_stock new_stock ∧
        classifyChange old_stock new_stock p = .unchanged :=
  mem_map_key_filterMap Prod.fst _ _ _ (fun _ => rfl) p

/-- In how many of the five partitions does product `p` occur (by key)? -/
def partitionCount (c : ChangeSet) (p : String) : Nat :=
  (if p ∈ keysOf c.added then 1 else 0)
    + (if p ∈ keysOf c.removed then 1 else 0)
    + (if p ∈ c.increased.map QtyChange.product then 1 else 0)
    + (if p ∈ c.decreased.map QtyChange.product then 1 else 0)
    + (if p ∈ keysOf c.unchanged then 1 else 0)

/-- C6: the five partitions of `track_changes old new` are exhaustive and
mutually disjoint over the union of the two snapshots' key sets: a product of
either snapshot occurs (by key) in exactly one partition, and a product of
neither snapshot occurs in none. -/
theorem track_changes_C6_partition (old_stock new_stock : StockMap) (p : String) :
    partitionCount (track_changes old_stock new_stock) p =
      if (hasKey old_stock p || hasKey new_stock p) = true then 1 else 0 := by
  by_cases hmem : p ∈ allProducts old_stock new_stock
  · have hkey : (hasKey old_stock p || hasKey new_stock p) = true :=
      (mem_allProducts_iff _ _ p).mp hmem
    rw [if_pos hkey]
    unfold partitionCount
    simp only [mem_keysOf_added_iff, mem_keysOf_removed_iff, mem_increased_iff,
               mem_decreased_iff, mem_keysOf_unchanged_iff]
    cases h : classifyChange old_stock new_stock p <;> simp [hmem, h]
  · have hkey : ¬ (hasKey old_stock p || hasKey new_stock p) = true :=
      fun h => hmem ((mem_allProducts_iff _ _ p).mpr h)
    rw [if_neg hkey]
    unfold partitionCount
    simp only [mem_keysOf_added_iff, mem_keysOf_removed_iff, mem_increased_iff,
               mem_decreased_iff, mem_keysOf_unchanged_iff]
    simp [hmem]

/-- C3: on a ledger holding quantity `q` of `P`, `deduct P d` with
`0 < d ≤ q` succeeds and leaves `q - d`, while `deduct P d` with `d > q`
(in particular whenever `P` is absent, where `q = 0`) fails and leaves the
ledger untouched — no partial deduction. -/
theorem deduct_C3_bounds (m : StockMap) (P : String) (d : Int) :
    (0 < d → d ≤ getQ m P →
      (deduct m P d).success = true ∧ getQ (deduct m P d).stock P = getQ m P - d)
    ∧ (getQ m P < d →
      (deduct m P d).success = false ∧ (deduct m P d).stock = m) := by
  unfold getQ deduct
  cases h : lookupQ m P with
  | none =>
    refine ⟨fun hd hle => absurd (lt_of_lt_of_le hd hle) (by simp), fun _ => ⟨rfl, rfl⟩⟩
  | some v =>
    simp only [Option.getD_some]
    constructor
    · intro hd hle
      rw [if_neg (not_lt.mpr hle)]
      simp [lookupQ_setKey]
    · intro hlt
      rw [if_pos hlt]
      exact ⟨rfl, rfl⟩

/-- Witness for C3 on the spec scenario: `deduct("Widget", 1)` on
`{Widget: 2}` succeeds leaving 1, and `deduct("Widget", 3)` on `{Widget: 2}`
fails leaving the ledger unchanged. -/
theorem deduct_C3_bounds_witness :
    ((deduct [("Widget", 2)] "Widget" 1).success = true ∧
      getQ (deduct [("Widget", 2)] "Widget" 1).stock "Widget" = getQ [("Widget", 2)] "Widget" - 1)
    ∧ ((deduct [("Widget", 2)] "Widget" 3).success = false ∧
      (deduct [("Widget", 2)] "Widget" 3).stock = [("Widget", 2)]) :=
  ⟨(deduct_C3_bounds [("Widget", 2)] "Widget" 1).1 (by decide) (by decide),
   (deduct_C3_bounds [("Widget", 2)] "Widget" 3).2 (by decide)⟩

/-- C2 counterexample: `deduct` performs no positivity check.  On ledger
`{A: 5}`, `deduct("A", -3)` does not fail — it succeeds and raises the
quantity to 8, mutating the ledger. -/
theorem deduct_C2_counterexample :
    (deduct [("A", 5)] "A" (-3)).success = true ∧
    (deduct [("A", 5)] "A" (-3)).stock = [("A", 8)] := by
  decide

/-- C2 amended: `deduct` validates only existence and sufficiency; a
non-positive quantity is not rejected.  Whenever `P` is present with a
non-negative quantity and `q ≤ 0`, `deduct P q` succeeds and sets the
quantity to `old - q` (an increase when `q < 0`). -/
theorem deduct_C2_amended (m : StockMap) (P : String) (q : Int) (hq : q ≤ 0)
    (hk : hasKey m P = true) (hnn : 0 ≤ getQ m P) :
    (deduct m P q).success = true ∧
    getQ (deduct m P q).stock P = getQ m P - q := by
  unfold hasKey at hk
  unfold getQ at hnn
  unfold getQ deduct
  cases h : lookupQ m P with
  | none => rw [h] at hk; cases hk
  | some v =>
    rw [h] at hnn
    simp only [Option.getD_some] at hnn ⊢
    rw [if_neg (not_lt.mpr (le_trans hq hnn))]
    simp [lookupQ_setKey]

/-- Witness for the amended C2: `deduct("A", -3)` on `{A: 5}` succeeds with
resulting quantity `5 - (-3) = 8`. -/
theorem deduct_C2_amended_witness :
    (deduct [("A", 5)] "A" (-3)).success = true ∧
    getQ (deduct [("A", 5)] "A" (-3)).stock "A" = getQ [("A", 5)] "A" - (-3) :=
  deduct_C2_amended [("A", 5)] "A" (-3) (by decide) (by decide) (by decide)

/-! ## Non-negativity of stored quantities -/

/-- Every quantity stored in the mapping is non-negative. -/
def allNonNeg (m : StockMap) : Prop :=
  ∀ pr ∈ m, 0 ≤ pr.2

instance (m : StockMap) : Decidable (allNonNeg m) :=
  List.decidableBAll _ m

theorem allNonNeg_setKey (m : StockMap) (p : String) (q : Int)
    (hm : allNonNeg m) (hq : 0 ≤ q) : allNonNeg (setKey m p q) := by
  induction m with
  | nil =>
    intro pr hpr
    simp at hpr
    subst hpr
    exact hq
  | cons hd rest ih =>
    obtain ⟨p', q'⟩ := hd
    have hhd : (0 : Int) ≤ q' := hm (p', q') (List.mem_cons_self _ _)
    have hrest : allNonNeg rest := fun pr hpr => hm pr (List.mem_cons_of_mem _ hpr)
    by_cases hp : p' = p
    · rw [setKey_cons, if_pos hp]
      intro pr hpr
      rcases List.mem_cons.mp hpr with h | h
      · subst h; exact hq
      · exact hrest pr h
    · rw [setKey_cons, if_neg hp]
      intro pr hpr
      rcases List.mem_cons.mp hpr with h | h
      · subst h; exact hhd
      · exact ih hrest pr h

theorem allNonNeg_getQ (m : StockMap) (hm : allNonNeg m) (p : String) :
    0 ≤ getQ m p := by
  unfold getQ
  induction m with
  | nil => simp
  | cons hd rest ih =>
    obtain ⟨p', q'⟩ := hd
    have hhd : (0 : Int) ≤ q' := hm (p', q') (List.mem_cons_self _ _)
    have hrest : allNonNeg rest := fun pr hpr => hm pr (List.mem_cons_of_mem _ hpr)
    by_cases hp : p' = p
    · simp [hp, hhd]
    · simp only [lookupQ_cons, if_neg hp]
      exact ih hrest

theorem allNonNeg_update_bulk (m d : StockMap) (hm : allNonNeg m) :
    allNonNeg d → allNonNeg (update_bulk m d) := by
  induction d generalizing m with
  | nil => exact fun _ => hm
  | cons pr rest ih =>
    intro hd
    obtain ⟨p', q'⟩ := pr
    have hq' : (0 : Int) ≤ q' := hd (p', q') (List.mem_cons_self _ _)
    have hrest : allNonNeg rest := fun x hx => hd x (List.mem_cons_of_mem _ hx)
    show allNonNeg (update_bulk (setKey m p' q') rest)
    exact ih (setKey m p' q') (allNonNeg_setKey m p' q' hm hq') hrest

/-- C9 counterexample: `update` (the `set` operation) is an unconditional
overwrite, so starting from the all-non-negative empty ledger,
`update("A", -1)` stores the negative quantity `-1`. -/
theorem nonneg_C9_counterexample :
    allNonNeg ([] : StockMap) ∧
    update [] "A" (-1) = [("A", -1)] ∧
    getQ (update [] "A" (-1)) "A" = -1 := by
  refine ⟨?_, by decide, by decide⟩
  intro pr hpr
  cases hpr

/-- C9 amended: `deduct` can never store a negative quantity (its sufficiency
guard makes the new value `v - q` non-negative in every successful case), and
`set`/`add`/`bulkSet` preserve non-negativity exactly when the quantities they
are handed are non-negative; with a negative argument `set` (and likewise
`add`/`bulkSet`) violates the invariant, as the counterexample shows. -/
theorem nonneg_C9_amended (m : StockMap) (p : String) (q : Int)
    (hm : allNonNeg m) :
    allNonNeg (deduct m p q).stock
    ∧ (0 ≤ q → allNonNeg (update m p q))
    ∧ (0 ≤ q → allNonNeg (add m p q))
    ∧ (∀ d : StockMap, allNonNeg d → allNonNeg (update_bulk m d)) := by
  refine ⟨?_, fun hq => allNonNeg_setKey m p q hm hq, ?_, ?_⟩
  · unfold deduct
    cases h : lookupQ m p with
    | none => exact hm
    | some v =>
      dsimp only
      by_cases hlt : v < q
      · rw [if_pos hlt]; exact hm
      · rw [if_neg hlt]
        have hvq : q ≤ v := not_lt.mp hlt
        have hv : 0 ≤ v := by
          have : ∃ pr ∈ m, pr.2 = v := by
            clear hvq hlt
            induction m with
            | nil => cases h
            | cons hd rest ih =>
              obtain ⟨p', q'⟩ := hd
              by_cases hp : p' = p
              · rw [lookupQ_cons, if_pos hp] at h
                exact ⟨(p', q'), List.mem_cons_self _ _, by injection h⟩
              · rw [lookupQ_cons, if_neg hp] at h
                obtain ⟨pr, hpr, hv⟩ :=
                  ih (fun pr hpr => hm pr (List.mem_cons_of_mem _ hpr)) h
                exact ⟨pr, List.mem_cons_of_mem _ hpr, hv⟩
          obtain ⟨pr, hpr, hv⟩ := this
          rw [← hv]
          exact hm pr hpr
        exact allNonNeg_setKey m p (v - q) hm (by omega)
  · intro hq
    exact allNonNeg_setKey m p _ hm
      (add_nonneg (allNonNeg_getQ m hm p) hq)
  · intro d hd
    exact allNonNeg_update_bulk m d hm hd

/-- Witness for the amended C9: from the all-non-negative ledger `{A: 2}`,
a `set` with the non-negative quantity `3` keeps all quantities non-negative. -/
theorem nonneg_C9_amended_witness :
    allNonNeg ([("A", 2)] : StockMap) ∧ allNonNeg (update [("A", 2)] "A" 3) :=
  ⟨by decide, (nonneg_C9_amended [("A", 2)] "A" 3 (by decide)).2.1 (by decide)⟩

/-- C4: `update_bulk` merges — any product absent from the supplied map keeps
its previous binding — and on ledger `{A:10, B:5}` reconciled against source
`{A:15, C:3}` the ChangeSet is increased = {A: old 10, new 15, delta 5},
removed = {B:5}, added = {C:3}, unchanged = {}, the resulting ledger is
`{A:15, B:5, C:3}`, and B persists at 5 despite being reported removed. -/
theorem bulk_C4_merge_scenario :
    (∀ (ledger d : StockMap) (p : String), hasKey d p = false →
        lookupQ (update_bulk ledger d) p = lookupQ ledger p)
    ∧ (sync_apply [("A", 10), ("B", 5)] [("A", 15), ("C", 3)]).changes =
        some ⟨[("C", 3)], [("B", 5)], [⟨"A", 10, 15, 5⟩], [], []⟩
    ∧ (sync_apply [("A", 10), ("B", 5)] [("A", 15), ("C", 3)]).stock =
        [("A", 15), ("B", 5), ("C", 3)]
    ∧ lookupQ (sync_apply [("A", 10), ("B", 5)] [("A", 15), ("C", 3)]).stock "B" =
        some 5 := by
  refine ⟨?_, by decide, by decide, by decide⟩
  intro ledger d p hk
  rw [lookupQ_update_bulk]
  have hnone : lookupLast d p = none := by
    cases h : lookupLast d p with
    | none => rfl
    | some q =>
      have hs : (lookupQ d p).isSome = true := by rw [← lookupLast_isSome, h]; rfl
      unfold hasKey at hk
      rw [hk] at hs
      cases hs
  rw [hnone]

/-- Witness for C4: product `A` is absent from the map `{C: 1}`, so a bulk
update with that map leaves `A`'s binding in the ledger `{A: 10}` unchanged. -/
theorem bulk_C4_merge_scenario_witness :
    hasKey [("C", 1)] "A" = false ∧
    lookupQ (update_bulk [("A", 10)] [("C", 1)]) "A" = lookupQ [("A", 10)] "A" :=
  ⟨by decide, bulk_C4_merge_scenario.1 [("A", 10)] [("C", 1)] "A" (by decide)⟩

/-- C5: when the source file is missing, `read_stock` fails with the
file-not-found (SourceUnavailable) error; when a required column is missing it
fails with the missing-columns (MalformedSource) error; in both cases
`sync_from_excel` returns the empty `({}, 0)` result and the ledger is not
mutated.  On a valid source the reconciliation always proceeds: bad rows are
merely skipped by the parser. -/
theorem sync_C5_source_failures (ledger : StockMap) (src : SourceFile) :
    (src.fileExists = false →
      read_stock src = .error (.sourceUnavailable "Excel file not found")
      ∧ sync_from_excel ledger src = ⟨none, 0, ledger, []⟩)
    ∧ (src.fileExists = true → (src.hasProductCol && src.hasQuantityCol) = false →
      read_stock src = .error (.malformedSource "Missing required columns")
      ∧ sync_from_excel ledger src = ⟨none, 0, ledger, []⟩)
    ∧ (src.fileExists = true → src.hasProductCol = true → src.hasQuantityCol = true →
      sync_from_excel ledger src = sync_apply ledger (parseRows src.rows)) := by
  refine ⟨?_, ?_, ?_⟩
  · intro h
    have hr : read_stock src = .error (.sourceUnavailable "Excel file not found") := by
      simp [read_stock, h]
    exact ⟨hr, by simp [sync_from_excel, hr]⟩
  · intro h1 h2
    have hr : read_stock src = .error (.malformedSource "Missing required columns") := by
      simp [read_stock, h1, h2]
    exact ⟨hr, by simp [sync_from_excel, hr]⟩
  · intro h1 h2 h3
    have hr : read_stock src = .ok (parseRows src.rows) := by
      simp [read_stock, h1, h2, h3]
    simp [sync_from_excel, hr]

/-- Witness for C5: with a non-existent source file, reconciling over ledger
`{A: 1}` returns the empty result and leaves the ledger `{A: 1}` as it was. -/
theorem sync_C5_source_failures_witness :
    (⟨false, true, true, []⟩ : SourceFile).fileExists = false ∧
    sync_from_excel [("A", 1)] ⟨false, true, true, []⟩ = ⟨none, 0, [("A", 1)], []⟩ :=
  ⟨rfl, ((sync_C5_source_failures [("A", 1)] ⟨false, true, true, []⟩).1 rfl).2⟩

/-- C8: in the watcher's tick step, `sync_from_excel` is invoked exactly when
the file is readable, the observed modification timestamp differs from the
last-recorded one, and the last-recorded value is non-zero.  Consequently a
missing file triggers nothing, the very first observation after startup
(`last_modified_time = 0`) only seeds the timestamp, and an unchanged
timestamp triggers nothing; in a run, the first tick never reconciles. -/
theorem watcher_C8_trigger (st : WatcherState) (m : Nat) :
    ((tick st (some m)).2 = true ↔
      m ≠ st.lastModifiedTime ∧ 0 < st.lastModifiedTime)
    ∧ (tick st none).2 = false
    ∧ tick ⟨0⟩ (some m) = (⟨m⟩, false)
    ∧ (tick st (some st.lastModifiedTime)).2 = false
    ∧ (∀ (obs : Option Nat) (rest : List (Option Nat)),
        (runTicks ⟨0⟩ (obs :: rest)).2.head? = some false) := by
  refine ⟨?_, rfl, ?_, ?_, ?_⟩
  · unfold tick
    by_cases h : m ≠ st.lastModifiedTime
    · simp [h]
    · simp [h]
  · unfold tick
    by_cases h : m ≠ (0 : Nat)
    · simp [h]
    · simp only [ne_eq, not_not] at h
      subst h
      simp
  · unfold tick
    simp
  · intro obs rest
    show ((tick ⟨0⟩ obs).2 :: (runTicks (tick ⟨0⟩ obs).1 rest).2).head? = some false
    cases obs with
    | none => rfl
    | some m2 =>
      unfold tick
      by_cases h : m2 ≠ (0 : Nat) <;> simp [h]

/-! ## Equivalences between the two application paths -/

/-- The entries that survive the shared parse filter (integer quantity,
non-negative), in row order. -/
def validList (items : List (String × Option Int)) : StockMap :=
  items.filterMap fun pr =>
    match pr.2 with
    | some q => if 0 ≤ q then some (pr.1, q) else none
    | none => none

theorem foldl_parseStep_eq (items : List (String × Option Int)) :
    ∀ L : StockMap, items.foldl parseStep L = update_bulk L (validList items) := by
  induction items with
  | nil => intro L; rfl
  | cons pr rest ih =>
    intro L
    obtain ⟨p, oq⟩ := pr
    show rest.foldl parseStep (parseStep L (p, oq)) = _
    cases oq with
    | none =>
      rw [ih]
      simp [parseStep, validList, List.filterMap_cons]
    | some q =>
      by_cases hq : (0 : Int) ≤ q
      · rw [ih]
        simp only [validList, List.filterMap_cons]
        rw [if_pos hq,
            show parseStep L (p, some q) = setKey L p q from by simp [parseStep, hq]]
        rfl
      · rw [ih]
        simp only [validList, List.filterMap_cons]
        rw [if_neg hq,
            show parseStep L (p, some q) = L from by simp [parseStep, hq]]

theorem applyApiItems_fst (items : List (String × Option Int)) :
    ∀ acc : StockMap × Nat × List AuditEntry,
      (items.foldl apiStep acc).1 = items.foldl parseStep acc.1 := by
  induction items with
  | nil => intro acc; rfl
  | cons pr rest ih =>
    intro acc
    show (rest.foldl apiStep (apiStep acc pr)).1 = rest.foldl parseStep (parseStep acc.1 pr)
    rw [ih]
    congr 1
    obtain ⟨p, oq⟩ := pr
    cases oq with
    | none => rfl
    | some q => by_cases hq : (0 : Int) ≤ q <;> simp [apiStep, parseStep, hq]

theorem nodupKeys_update_bulk (m d : StockMap) (hm : (keysOf m).Nodup) :
    (keysOf (update_bulk m d)).Nodup := by
  induction d generalizing m with
  | nil => exact hm
  | cons pr rest ih =>
    show (keysOf (update_bulk (setKey m pr.1 pr.2) rest)).Nodup
    exact ih _ (nodupKeys_setKey m pr.1 pr.2 hm)

theorem lookupLast_update_bulk_nil (d : StockMap) (x : String) :
    lookupLast (update_bulk [] d) x = lookupLast d x := by
  rw [lookupLast_eq_lookupQ _ (nodupKeys_update_bulk [] d (by simp)) x,
      lookupQ_update_bulk]
  cases h : lookupLast d x <;> rfl

theorem nodupKeys_parseRows (rows : List (String × Option Int)) :
    (keysOf (parseRows rows)).Nodup := by
  unfold parseRows
  rw [foldl_parseStep_eq]
  exact nodupKeys_update_bulk [] _ (by simp)

/-- `sync_from_excel` over a readable, well-formed source reduces to the
diff-and-bulk-update path over the parsed rows. -/
theorem sync_from_excel_valid (ledger : StockMap) (src : SourceFile)
    (hex : src.fileExists = true) (hpc : src.hasProductCol = true)
    (hqc : src.hasQuantityCol = true) :
    sync_from_excel ledger src = sync_apply ledger (parseRows src.rows) := by
  simp [sync_from_excel, read_stock, hex, hpc, hqc]

/-- C7 counterexample: the two reconciliation paths are not behaviourally
equivalent given the same candidate snapshot `{A: 5}` over ledger `{A: 5}`:
the spreadsheet path reports 0 changes and writes no audit rows, while the
API path reports 1 item updated and writes one zero-delta `api_import` row. -/
theorem api_C7_counterexample :
    (sync_from_excel [("A", 5)] ⟨true, true, true, [("A", some 5)]⟩).changeCount = 0
    ∧ (sync_from_excel [("A", 5)] ⟨true, true, true, [("A", some 5)]⟩).audit = []
    ∧ (fetch_from_api [("A", 5)] true true [("A", some 5)]).itemsUpdated = 1
    ∧ (fetch_from_api [("A", 5)] true true [("A", some 5)]).audit =
        [⟨"A", 0, 5, "api_import"⟩] := by
  decide

/-- C7 amended: given the same candidate snapshot, the two paths do leave the
ledger in pointwise the same state, even though the API path applies per-item
updates without a diff or a single bulk update (and, as the counterexample
records, differs in reported count and audit rows). -/
theorem api_C7_same_ledger (ledger : StockMap)
    (items : List (String × Option Int)) (p : String) :
    lookupQ (fetch_from_api ledger true true items).stock p =
      lookupQ (sync_from_excel ledger ⟨true, true, true, items⟩).stock p := by
  have hfetch : (fetch_from_api ledger true true items).stock =
      items.foldl parseStep ledger :=
    applyApiItems_fst items (ledger, 0, [])
  have hsync : (sync_from_excel ledger ⟨true, true, true, items⟩).stock =
      update_bulk ledger (parseRows items) := by
    rw [sync_from_excel_valid ledger ⟨true, true, true, items⟩ rfl rfl rfl]
    rfl
  rw [hfetch, hsync, foldl_parseStep_eq]
  show _ = lookupQ (update_bulk ledger (List.foldl parseStep [] items)) p
  rw [foldl_parseStep_eq]
  rw [lookupQ_update_bulk, lookupQ_update_bulk, lookupLast_update_bulk_nil]

/-! ## The second reconciliation pass (C1) -/

/-- After merging a duplicate-free candidate `d` into any ledger, diffing the
merged ledger against `d` classifies every product of the union as
`unchanged` when `d` still carries it and as `removed` otherwise. -/
theorem classifyChange_after_merge (L d : StockMap) (hd : (keysOf d).Nodup)
    (p : String)
    (hp : (hasKey (update_bulk L d) p || hasKey d p) = true) :
    classifyChange (update_bulk L d) d p =
      if hasKey d p then .unchanged else .removed := by
  by_cases hk : hasKey d p = true
  · have hlook : lookupQ (update_bulk L d) p = lookupQ d p := by
      rw [lookupQ_update_bulk, lookupLast_eq_lookupQ d hd]
      unfold hasKey at hk
      cases h : lookupQ d p with
      | none => rw [h] at hk; cases hk
      | some q => rfl
    have hk2 : hasKey (update_bulk L d) p = true := by
      rw [hasKey_update_bulk, hk]
      simp
    unfold classifyChange
    rw [hk2, hk]
    simp [getQ, hlook]
  · have hk2 : hasKey (update_bulk L d) p = true := by
      have hp2 : hasKey (update_bulk L d) p = true ∨ hasKey d p = true := by
        simpa using hp
      rcases hp2 with h | h
      · exact h
      · exact absurd h hk
    simp only [Bool.not_eq_true] at hk
    unfold classifyChange
    rw [hk2, hk]
    simp

/-- C1 counterexample: idempotence fails when the pre-existing ledger holds a
product the source omits.  With ledger `{B: 5}` and the unchanged valid source
`{A: 1}`, the second reconciliation still reports `removed = {B: 5}` and a
changeCount of 1 (not 0, with `B` in no `unchanged` partition), because
`update_bulk` never deleted `B`. -/
theorem sync_C1_counterexample :
    (sync_from_excel
        (sync_from_excel [("B", 5)] ⟨true, true, true, [("A", some 1)]⟩).stock
        ⟨true, true, true, [("A", some 1)]⟩).changeCount = 1
    ∧ (sync_from_excel
        (sync_from_excel [("B", 5)] ⟨true, true, true, [("A", some 1)]⟩).stock
        ⟨true, true, true, [("A", some 1)]⟩).changes =
      some ⟨[], [("B", 5)], [], [], [("A", 1)]⟩ := by
  decide

/-- C1 amended: reconciling twice from an unchanged valid source gives a second
ChangeSet with empty `added`, `increased` and `decreased`; its `removed`
partition holds exactly the products of the original ledger that the source
omits, and the returned changeCount is the number of those.  In particular,
when every ledger product also occurs in the source, the second pass has all
products in `unchanged` and changeCount 0, as the claim states. -/
theorem sync_C1_second_pass (ledger : StockMap) (src : SourceFile)
    (hex : src.fileExists = true) (hpc : src.hasProductCol = true)
    (hqc : src.hasQuantityCol = true) :
    ∃ cs2 : ChangeSet,
      (sync_from_excel (sync_from_excel ledger src).stock src).changes = some cs2
      ∧ cs2.added = [] ∧ cs2.increased = [] ∧ cs2.decreased = []
      ∧ (∀ p, p ∈ keysOf cs2.removed ↔
          (hasKey ledger p = true ∧ hasKey (parseRows src.rows) p = false))
      ∧ (sync_from_excel (sync_from_excel ledger src).stock src).changeCount =
          cs2.removed.length
      ∧ ((∀ p, hasKey ledger p = true → hasKey (parseRows src.rows) p = true) →
          cs2.removed = []
          ∧ (sync_from_excel (sync_from_excel ledger src).stock src).changeCount = 0
          ∧ (∀ p,
              (hasKey (sync_from_excel ledger src).stock p
                || hasKey (parseRows src.rows) p) = true →
              p ∈ keysOf cs2.unchanged)) := by
  have hD : (keysOf (parseRows src.rows)).Nodup := nodupKeys_parseRows src.rows
  have h1 : sync_from_excel ledger src = sync_apply ledger (parseRows src.rows) :=
    sync_from_excel_valid ledger src hex hpc hqc
  set D := parseRows src.rows with hDdef
  set L1 := update_bulk ledger D with hL1
  have hstock1 : (sync_from_excel ledger src).stock = L1 := by rw [h1]; rfl
  have h2 : sync_from_excel (sync_from_excel ledger src).stock src =
      sync_apply L1 D := by
    rw [hstock1, sync_from_excel_valid L1 src hex hpc hqc]
  have hcl : ∀ p ∈ allProducts L1 D,
      classifyChange L1 D p =
        if hasKey D p then ChangeKind.unchanged else ChangeKind.removed :=
    fun p hp =>
      classifyChange_after_merge ledger D hD p ((mem_allProducts_iff L1 D p).mp hp)
  have hadded : (track_changes L1 D).added = [] := by
    show (allProducts L1 D).filterMap
        (fun p => if classifyChange L1 D p = ChangeKind.added
          then some (p, getQ D p) else none) = []
    rw [List.filterMap_eq_nil_iff]
    intro p hp
    rw [hcl p hp]
    by_cases hk : hasKey D p <;> simp [hk]
  have hinc : (track_changes L1 D).increased = [] := by
    show (allProducts L1 D).filterMap
        (fun p => if classifyChange L1 D p = ChangeKind.increased
          then some (QtyChange.mk p (getQ L1 p) (getQ D p) (getQ D p - getQ L1 p))
          else none) = []
    rw [List.filterMap_eq_nil_iff]
    intro p hp
    rw [hcl p hp]
    by_cases hk : hasKey D p <;> simp [hk]
  have hdec : (track_changes L1 D).decreased = [] := by
    show (allProducts L1 D).filterMap
        (fun p => if classifyChange L1 D p = ChangeKind.decreased
          then some (QtyChange.mk p (getQ L1 p) (getQ D p) (getQ L1 p - getQ D p))
          else none) = []
    rw [List.filterMap_eq_nil_iff]
    intro p hp
    rw [hcl p hp]
    by_cases hk : hasKey D p <;> simp [hk]
  have hrem : ∀ p, p ∈ keysOf (track_changes L1 D).removed ↔
      (hasKey ledger p = true ∧ hasKey D p = false) := by
    intro p
    rw [mem_keysOf_removed_iff]
    constructor
    · rintro ⟨hmem, hclp⟩
      have hor := (mem_allProducts_iff L1 D p).mp hmem
      rw [hcl p hmem] at hclp
      by_cases hk : hasKey D p
      · rw [if_pos hk] at hclp; cases hclp
      · rw [if_neg hk] at hclp
        simp only [Bool.not_eq_true] at hk
        refine ⟨?_, hk⟩
        have hor2 : hasKey L1 p = true ∨ hasKey D p = true := by simpa using hor
        rcases hor2 with h | h
        · rw [hL1, hasKey_update_bulk, hk] at h
          simpa using h
        · rw [h] at hk; cases hk
    · rintro ⟨hled, hk⟩
      have hmem : p ∈ allProducts L1 D := by
        rw [mem_allProducts_iff, hL1, hasKey_update_bulk, hled, hk]
        simp
      exact ⟨hmem, by rw [hcl p hmem, if_neg (by simp [hk])]⟩
  have hcount : (sync_apply L1 D).changeCount =
      (track_changes L1 D).removed.length := by
    show (auditOf (track_changes L1 D)).length = _
    unfold auditOf
    rw [hadded, hinc, hdec]
    simp
  refine ⟨track_changes L1 D, by rw [h2]; rfl, hadded, hinc, hdec, hrem,
          by rw [h2]; exact hcount, ?_⟩
  intro hsub
  have hremnil : (track_changes L1 D).removed = [] := by
    apply List.eq_nil_iff_forall_not_mem.mpr
    intro pr hpr
    have hmem : pr.1 ∈ keysOf (track_changes L1 D).removed :=
      List.mem_map_of_mem Prod.fst hpr
    rw [hrem pr.1] at hmem
    have := hsub pr.1 hmem.1
    rw [hmem.2] at this
    cases this
  refine ⟨hremnil, by rw [h2, hcount, hremnil]; rfl, ?_⟩
  intro p hp
  rw [hstock1] at hp
  have hmem : p ∈ allProducts L1 D := (mem_allProducts_iff L1 D p).mpr hp
  have hk : hasKey D p = true := by
    by_cases hk : hasKey D p
    · exact hk
    · simp only [Bool.not_eq_true] at hk
      have hp2 : hasKey L1 p = true ∨ hasKey D p = true := by simpa using hp
      rcases hp2 with h | h
      · rw [hL1, hasKey_update_bulk, hk] at h
        simp only [Bool.false_or] at h
        have := hsub p h
        rw [hk] at this
        cases this
      · rw [h] at hk; cases hk
  rw [mem_keysOf_unchanged_iff]
  exact ⟨hmem, by rw [hcl p hmem, if_pos hk]⟩

/-- Witness for the amended C1: on ledger `{A: 2}` and the valid source
`{A: 7}` (which covers every ledger product), the second reconciliation's
ChangeSet exists with the stated empty partitions and zero count. -/
theorem sync_C1_second_pass_witness :
    ∃ cs2 : ChangeSet,
      (sync_from_excel
          (sync_from_excel [("A", 2)] ⟨true, true, true, [("A", some 7)]⟩).stock
          ⟨true, true, true, [("A", some 7)]⟩).changes = some cs2
      ∧ cs2.added = [] ∧ cs2.increased = [] ∧ cs2.decreased = []
      ∧ (∀ p, p ∈ keysOf cs2.removed ↔
          (hasKey [("A", 2)] p = true
            ∧ hasKey (parseRows [("A", some 7)]) p = false))
      ∧ (sync_from_excel
          (sync_from_excel [("A", 2)] ⟨true, true, true, [("A", some 7)]⟩).stock
          ⟨true, true, true, [("A", some 7)]⟩).changeCount = cs2.removed.length
      ∧ ((∀ p, hasKey [("A", 2)] p = true →
            hasKey (parseRows [("A", some 7)]) p = true) →
          cs2.removed = []
          ∧ (sync_from_excel
              (sync_from_excel [("A", 2)] ⟨true, true, true, [("A", some 7)]⟩).stock
              ⟨true, true, true, [("A", some 7)]⟩).changeCount = 0
          ∧ (∀ p,
              (hasKey (sync_from_excel [("A", 2)]
                  ⟨true, true, true, [("A", some 7)]⟩).stock p
                || hasKey (parseRows [("A", some 7)]) p) = true →
              p ∈ keysOf cs2.unchanged)) :=
  sync_C1_second_pass [("A", 2)] ⟨true, true, true, [("A", some 7)]⟩ rfl rfl rfl

/-! ## Audit rows of a removed product (C10) -/

theorem filter_key_map_filterMap {γ δ : Type} (k : δ → String) (l : List String)
    (hl : l.Nodup) (cond : String → Prop) [DecidablePred cond] (g : String → γ)
    (f : γ → δ) (hfg : ∀ p, k (f (g p)) = p) (P : String) :
    (((l.filterMap fun p => if cond p then some (g p) else none).map f).filter
        fun e => k e = P) =
      if P ∈ l ∧ cond P then [f (g P)] else [] := by
  rw [List.map_filterMap]
  have he : (fun p => Option.map f (if cond p then some (g p) else none)) =
      (fun p => if cond p then some (f (g p)) else none) := by
    funext p
    by_cases hc : cond p <;> simp [hc]
  rw [he]
  exact filter_key_filterMap k l hl cond (fun p => f (g p)) hfg P

/-- C10: after a file reconciliation whose source omits a product `P` that the
ledger holds, the audit log receives exactly one row for `P` — delta
`-old_qty`, recorded resulting quantity `0`, reason `excel_removed` — while
the ledger still maps `P` to its old quantity; so whenever that old quantity
is non-zero, the audit row's recorded resulting quantity disagrees with the
ledger's actual post-reconciliation quantity. -/
theorem sync_C10_removed_audit (ledger : StockMap) (src : SourceFile) (P : String)
    (hex : src.fileExists = true) (hpc : src.hasProductCol = true)
    (hqc : src.hasQuantityCol = true)
    (hold : hasKey ledger P = true)
    (hnew : hasKey (parseRows src.rows) P = false) :
    ((sync_from_excel ledger src).audit.filter fun e => e.product = P) =
      [⟨P, -(getQ ledger P), 0, "excel_removed"⟩]
    ∧ getQ (sync_from_excel ledger src).stock P = getQ ledger P
    ∧ (getQ ledger P ≠ 0 →
        (0 : Int) ≠ getQ (sync_from_excel ledger src).stock P) := by
  have h1 : sync_from_excel ledger src = sync_apply ledger (parseRows src.rows) :=
    sync_from_excel_valid ledger src hex hpc hqc
  set D := parseRows src.rows with hDdef
  have hstock : (sync_from_excel ledger src).stock = update_bulk ledger D := by
    rw [h1]; rfl
  have haudit : (sync_from_excel ledger src).audit =
      auditOf (track_changes ledger D) := by
    rw [h1]; rfl
  have hget : getQ (sync_from_excel ledger src).stock P = getQ ledger P := by
    rw [hstock]
    unfold getQ
    rw [lookupQ_update_bulk]
    have hlast : lookupLast D P = none := by
      cases h : lookupLast D P with
      | none => rfl
      | some q =>
        have hs : (lookupQ D P).isSome = true := by rw [← lookupLast_isSome, h]; rfl
        unfold hasKey at hnew
        rw [hnew] at hs
        cases hs
    rw [hlast]
  refine ⟨?_, hget, fun hz => by rw [hget]; exact fun h => hz h.symm⟩
  have hclP : classifyChange ledger D P = ChangeKind.removed := by
    unfold classifyChange
    rw [hold, hnew]
    simp
  have hmemP : P ∈ allProducts ledger D := by
    rw [mem_allProducts_iff, hold]
    simp
  have hnd := nodup_allProducts ledger D
  rw [haudit]
  unfold auditOf
  rw [List.filter_append, List.filter_append, List.filter_append]
  rw [show (track_changes ledger D).added =
      (allProducts ledger D).filterMap (fun p =>
        if classifyChange ledger D p = ChangeKind.added
        then some (p, getQ D p) else none) from rfl]
  rw [show (track_changes ledger D).removed =
      (allProducts ledger D).filterMap (fun p =>
        if classifyChange ledger D p = ChangeKind.removed
        then some (p, getQ ledger p) else none) from rfl]
  rw [show (track_changes ledger D).increased =
      (allProducts ledger D).filterMap (fun p =>
        if classifyChange ledger D p = ChangeKind.increased
        then some (QtyChange.mk p (getQ ledger p) (getQ D p)
          (getQ D p - getQ ledger p)) else none) from rfl]
  rw [show (track_changes ledger D).decreased =
      (allProducts ledger D).filterMap (fun p =>
        if classifyChange ledger D p = ChangeKind.decreased
        then some (QtyChange.mk p (getQ ledger p) (getQ D p)
          (getQ ledger p - getQ D p)) else none) from rfl]
  rw [filter_key_map_filterMap AuditEntry.product _ hnd _ _ _ (fun p => rfl) P,
      filter_key_map_filterMap AuditEntry.product _ hnd _ _ _ (fun p => rfl) P,
      filter_key_map_filterMap AuditEntry.product _ hnd _ _ _ (fun p => rfl) P,
      filter_key_map_filterMap AuditEntry.product _ hnd _ _ _ (fun p => rfl) P]
  rw [if_neg (fun h => by rw [hclP] at h; cases h.2),
      if_pos ⟨hmemP, hclP⟩,
      if_neg (fun h => by rw [hclP] at h; cases h.2),
      if_neg (fun h => by rw [hclP] at h; cases h.2)]
  rfl

/-- Witness for C10: ledger `{B: 5}` reconciled against the valid source
`{A: 1}` logs exactly one row for `B` (delta `-5`, recorded resulting
quantity `0`, reason `excel_removed`) while the ledger still holds `B` at 5,
which differs from the recorded 0. -/
theorem sync_C10_removed_audit_witness :
    ((sync_from_excel [("B", 5)] ⟨true, true, true, [("A", some 1)]⟩).audit.filter
        fun e => e.product = "B") =
      [⟨"B", -(getQ [("B", 5)] "B"), 0, "excel_removed"⟩]
    ∧ getQ (sync_from_excel [("B", 5)]
        ⟨true, true, true, [("A", some 1)]⟩).stock "B" = getQ [("B", 5)] "B"
    ∧ (getQ [("B", 5)] "B" ≠ 0 →
        (0 : Int) ≠ getQ (sync_from_excel [("B", 5)]
          ⟨true, true, true, [("A", some 1)]⟩).stock "B") :=
  sync_C10_removed_audit [("B", 5)] ⟨true, true, true, [("A", some 1)]⟩ "B"
    rfl rfl rfl (by decide) (by decide)
